import Mathlib

/-
Shallow embedding of src/src/App.jsx (FreePBX-UI admin dashboard).

Conventions of the embedding:
* JavaScript numbers that can hold extension ids are modelled by `JsNum`:
  the ids produced by the code are either integers or `-Infinity`
  (`Math.max(...[])` is `-Infinity`, and `-Infinity + 1 = -Infinity`,
  exactly); no other float behaviour is reachable in the modelled code.
* `undefined` is modelled by `Option.none` where it can occur.
* A rejected promise of the network branch is the explicit failure
  scenario of the `*Fail` functions; the mock branch never rejects,
  which the adapter models by always returning `Except.ok`.
* Each UI operation is modelled atomically: the optimistic write and the
  settling write of one operation happen with no interleaving, matching
  the single sequential user of the spec's concurrency model.
-/

/-- JS number values reachable as ids in the code: integers, plus
`-Infinity` from `Math.max(...[])` on an empty store. -/
inductive JsNum where
  | negInf : JsNum
  | int : Int → JsNum
deriving DecidableEq, Repr

/-- Model of `Math.max` on the reachable values. -/
def JsNum.max : JsNum → JsNum → JsNum
  | .negInf, b => b
  | .int a, .negInf => .int a
  | .int a, .int b => .int (Max.max a b)

/-- Model of `x + 1` on the reachable values (`-Infinity + 1 = -Infinity`). -/
def JsNum.addOne : JsNum → JsNum
  | .negInf => .negInf
  | .int a => .int (a + 1)

/-- Numeric order on the reachable values, as a boolean. -/
def JsNum.leB : JsNum → JsNum → Bool
  | .negInf, _ => true
  | .int _, .negInf => false
  | .int a, .int b => decide (a ≤ b)

/-- How a template literal prints such a value. -/
def JsNum.render : JsNum → String
  | .negInf => "-Infinity"
  | .int n => toString n

/-- An extension record.  `optimisticFlag` models the `__optimistic`
key: `true` on the locally inserted placeholder, absent (`false`) on
mock-store rows and on every record the adapter returns. -/
structure Extension where
  id : JsNum
  tech : String
  name : String
  callerid : String
  voicemail : Bool
  vm_email : String
  optimisticFlag : Bool
deriving DecidableEq, Repr

/-- The field set captured by the extension modal form (`tech`, `name`,
`callerid`, `voicemail`, `vm_email`).  An edit form also carries the
row's own `id`, which the merge rewrites with the identical value, so it
is omitted here. -/
structure Form where
  tech : String
  name : String
  callerid : String
  voicemail : Bool
  vm_email : String
deriving DecidableEq, Repr

/-- An audit entry: `{ ...entry, ts: Date.now(), user: role }`. -/
structure AuditEntry where
  action : String
  detail : String
  ts : Nat
  user : String
deriving DecidableEq, Repr

/-- The `MOCK_EXTENSIONS` seed data from the source. -/
def MOCK_EXTENSIONS : List Extension :=
  [ ⟨.int 1001, "PJSIP", "Reception", "Reception <1001>", true, "reception@example.com", false⟩,
    ⟨.int 1002, "PJSIP", "Sales", "Sales <1002>", true, "sales@example.com", false⟩,
    ⟨.int 1003, "PJSIP", "Support", "Support <1003>", false, "", false⟩ ]

/-- A call-detail record. -/
structure CallRec where
  id : String
  src : String
  dst : String
  disposition : String
  duration : Nat
  calldate : String
deriving DecidableEq, Repr

/-- Model of `String(v).padStart(2, "0")` for the two-digit date pieces. -/
def pad2 (n : Nat) : String :=
  if n < 10 then "0" ++ toString n else toString n

/-- Row `i` of `MOCK_CALLS`. -/
def mockCall (i : Nat) : CallRec :=
  { id := "c" ++ toString (i + 1)
  , src := if i % 3 = 0 then "0400123456" else toString (1001 + i % 5)
  , dst := toString (1001 + i % 7)
  , disposition := if i % 4 = 0 then "NO ANSWER" else "ANSWERED"
  , duration := (i % 5) * 47
  , calldate := "2025-08-" ++ pad2 (1 + i % 28) ++ " " ++ pad2 (8 + i % 10)
      ++ ":0" ++ toString (i % 6) ++ ":1" ++ toString (i % 9) }

/-- The `MOCK_CALLS` fixture: 137 generated call records. -/
def MOCK_CALLS : List CallRec := (List.range 137).map mockCall

/-- A parsed JSON value (the realtime feed's messages), with JSON
numbers restricted to the integers that occur in this code. -/
inductive JsVal where
  | jnull : JsVal
  | jbool : Bool → JsVal
  | jnum : Int → JsVal
  | jstr : String → JsVal
  | jarr : List JsVal → JsVal
  | jobj : List (String × JsVal) → JsVal
deriving Repr

/-- Key lookup in a parsed JSON object.  `JSON.parse` keeps one value
per key, so first match suffices. -/
def lookupField : List (String × JsVal) → String → Option JsVal
  | [], _ => none
  | (k', v) :: rest, k => if k' = k then some v else lookupField rest k

/-- Property access `v.k`: `none` models the `TypeError` thrown when
`v` is `null`; `some none` is `undefined`; `some (some x)` is a value. -/
def getProp : JsVal → String → Option (Option JsVal)
  | .jnull, _ => none
  | .jobj fs, k => some (lookupField fs k)
  | _, _ => some none

/-- JS truthiness of a possibly-`undefined` JSON value. -/
def truthy : Option JsVal → Bool
  | none => false
  | some .jnull => false
  | some (.jbool b) => b
  | some (.jnum n) => decide (n ≠ 0)
  | some (.jstr s) => decide (s ≠ "")
  | some (.jarr _) => true
  | some (.jobj _) => true

/-- The `MOCK_STATUS` object from the source, as the JSON value the feed holds. -/
def MOCK_STATUS_js : JsVal :=
  .jobj [("trunks", .jarr
      [ .jobj [("name", .jstr "SIP Trunk AU-East"), ("state", .jstr "Registered"), ("latency_ms", .jnum 38)],
        .jobj [("name", .jstr "SIP Trunk AU-West"), ("state", .jstr "Reachable"), ("latency_ms", .jnum 182)] ]),
    ("queues", .jarr
      [ .jobj [("name", .jstr "600 Support"), ("agents", .jnum 4), ("logged_in", .jnum 3), ("waiting", .jnum 0)],
        .jobj [("name", .jstr "700 Sales"), ("agents", .jnum 6), ("logged_in", .jnum 5), ("waiting", .jnum 1)] ])]

/-- The `ws.onmessage` handler of `useAriStatus`.  `raw` is the result
of `JSON.parse(evt.data)`: `none` when parsing threw (caught, state
kept).  `if (msg.trunks || msg.queues) setStatus(msg)` stores the whole
message; a thrown property access is caught, keeping the state. -/
def onAriMessage (st : JsVal) (raw : Option JsVal) : JsVal :=
  match raw with
  | none => st
  | some msg =>
    match getProp msg "trunks", getProp msg "queues" with
    | some t, some q => if truthy t || truthy q then msg else st
    | _, _ => st

/-- Model of `Math.max(...MOCK_EXTENSIONS.map(e => e.id)) + 1`:  `Math.max` of no
arguments is `-Infinity`. -/
def nextMockId (store : List Extension) : JsNum :=
  ((store.map (fun e => e.id)).foldl JsNum.max JsNum.negInf).addOne

/-- The created row `id: nextId, tech: payload.tech or "PJSIP", ...payload`: the
spread of the create form (which always carries `tech`) overrides the
`tech` default, so every field comes from the form except `id`. -/
def mkMockRow (nextId : JsNum) (f : Form) : Extension :=
  ⟨nextId, f.tech, f.name, f.callerid, f.voicemail, f.vm_email, false⟩

/-- Mock branch of `apiCreateExtension`: push the new row, return it.
The promise always resolves, hence `Except.ok`. -/
def apiCreateExtensionMock (store : List Extension) (f : Form) :
    List Extension × Except String Extension :=
  let row := mkMockRow (nextMockId store) f
  (store ++ [row], Except.ok row)

/-- The spread merge of an update, `...MOCK_EXTENSIONS[i], ...payload`. -/
def mergeForm (e : Extension) (f : Form) : Extension :=
  { e with tech := f.tech, name := f.name, callerid := f.callerid,
           voicemail := f.voicemail, vm_email := f.vm_email }

/-- Mock branch of `apiUpdateExtension`: `findIndex`, in-place merge of
the first row with the id, and `return MOCK_EXTENSIONS[i]` — which is
the merged row when found and `undefined` (`none`) when `i = -1`. -/
def updateFirst (store : List Extension) (id : JsNum) (f : Form) :
    List Extension × Option Extension :=
  match store with
  | [] => ([], none)
  | e :: rest =>
    if e.id = id then
      (mergeForm e f :: rest, some (mergeForm e f))
    else
      (e :: (updateFirst rest id f).1, (updateFirst rest id f).2)

/-- The mock update as the adapter returns it: it always resolves. -/
def apiUpdateExtensionMock (store : List Extension) (id : JsNum) (f : Form) :
    List Extension × Except String (Option Extension) :=
  ((updateFirst store id f).1, Except.ok (updateFirst store id f).2)

/-- Mock branch of `apiDeleteExtension`: `findIndex` + `splice(idx, 1)`
removes the first row with the id (no row: store unchanged); the
promise always resolves with `{ ok: true }`. -/
def deleteFirst (store : List Extension) (id : JsNum) : List Extension :=
  match store with
  | [] => []
  | e :: rest => if e.id = id then rest else e :: deleteFirst rest id

/-- Lexicographic order on the character lists of two strings. -/
def charsLeB : List Char → List Char → Bool
  | [], _ => true
  | _ :: _, [] => false
  | a :: as, b :: bs =>
    if a < b then true else if a = b then charsLeB as bs else false

/-- Model of `new Date(a) <= new Date(b)` on this code's
`YYYY-MM-DD[ HH:MM:SS]` strings, where chronological order coincides
with lexicographic order. -/
def strLeB (a b : String) : Bool := charsLeB a.data b.data

/-- The mock CDR filter predicate of `apiFetchCalls` (empty string is
falsy, so an empty filter component accepts every row). -/
def callMatches (ext fromD toD : String) (c : CallRec) : Bool :=
  (decide (ext = "") || decide (c.src = ext) || decide (c.dst = ext)) &&
  (decide (fromD = "") || strLeB fromD c.calldate) &&
  (decide (toD = "") || strLeB c.calldate toD)

/-- Mock branch of `apiFetchCalls`: filter, take `total`, then
`rows.slice((page - 1) * pageSize, start + pageSize)`. -/
def apiFetchCallsMock (fromD toD ext : String) (page pageSize : Nat) :
    List CallRec × Nat :=
  let rows := MOCK_CALLS.filter (callMatches ext fromD toD)
  let total := rows.length
  (((rows.drop ((page - 1) * pageSize)).take pageSize), total)

/-- Model of `Math.ceil(total / pageSize)` for naturals (valid for
`pageSize > 0`, the only sizes the panel's selector offers). -/
def jsCeilDiv (total pageSize : Nat) : Nat := (total + pageSize - 1) / pageSize

/-- Model of `totalPages = Math.max(1, Math.ceil(total / pageSize))`. -/
def totalPagesOf (total pageSize : Nat) : Nat := max 1 (jsCeilDiv total pageSize)

/-- The page the Next button moves to:
`setPage(p => Math.min(totalPages, p + 1))`. -/
def nextPageTarget (page total pageSize : Nat) : Nat :=
  min (totalPagesOf total pageSize) (page + 1)

/-- Model of the stringified-value `includes(c)` test for one character. -/
def containsChar (s : String) (c : Char) : Bool := s.data.any (fun x => x == c)

/-- Model of the global regex replace of a double quote by two. -/
def escapeQuotes (s : String) : String :=
  String.mk (s.data.foldr (fun c acc => if c = '"' then '"' :: '"' :: acc else c :: acc) [])

/-- The `escape` closure of `downloadCsv`: quote (and double embedded
quotes) only when the field contains a comma or a newline. -/
def escapeCsvField (v : String) : String :=
  if containsChar v ',' || containsChar v '\n' then
    "\"" ++ escapeQuotes v ++ "\""
  else v

/-- Modelled from the spec: standard CSV quoting ("a field containing a
comma, a double quote, or a newline is enclosed in double quotes with
each embedded double quote doubled"), for comparison with the source's
`escape`. -/
def specEscapeCsvField (v : String) : String :=
  if containsChar v ',' || containsChar v '"' || containsChar v '\n' then
    "\"" ++ escapeQuotes v ++ "\""
  else v

/-- Model of `list.join(sep)`. -/
def joinSep (sep : String) : List String → String
  | [] => ""
  | [x] => x
  | x :: xs => x ++ sep ++ joinSep sep xs

/-- Model of `Object.keys` on the first record: its field names
of the page (in literal insertion order), or none at all. -/
def csvHeadersOf : List CallRec → List String
  | [] => []
  | _ :: _ => ["id", "src", "dst", "disposition", "duration", "calldate"]

/-- The field values of one record, stringified as `` `${v ?? ""}` ``. -/
def recFields (c : CallRec) : List String :=
  [c.id, c.src, c.dst, c.disposition, toString c.duration, c.calldate]

/-- The CSV text `downloadCsv` builds for the loaded page. -/
def csvString (rows : List CallRec) : String :=
  joinSep "\n"
    (joinSep "," (csvHeadersOf rows) ::
      rows.map (fun r => joinSep "," ((recFields r).map escapeCsvField)))

/-- The root shell's `pushAudit`: stamp the entry with the clock and active role,
prepend it, keep the 200 most recent. -/
def pushAudit (role : String) (now : Nat) (action detail : String)
    (a : List AuditEntry) : List AuditEntry :=
  (⟨action, detail, now, role⟩ :: a).take 200

/-- The panel list and audit log affected by one extension mutation. -/
structure PanelAudit where
  panel : List Extension
  audit : List AuditEntry
deriving DecidableEq, Repr

/-- The optimistic placeholder of `createExt`:
`{ id: Math.floor(Math.random() * 1e9), ...form, __optimistic: true }`. -/
def mkOptimisticRow (optId : Int) (f : Form) : Extension :=
  ⟨.int optId, f.tech, f.name, f.callerid, f.voicemail, f.vm_email, true⟩

/-- Behaviour of `createExt` when `apiCreateExtension` rejects: prepend the
placeholder and push the create entry, then drop the placeholder again
(`d.filter(r => r !== optimistic)`: `!==` is reference inequality, and
the placeholder is freshly allocated, so the structural filter below
coincides with it whenever no prior row equals the placeholder) and
push the rollback entry. -/
def createExtFail (role : String) (t1 t2 : Nat) (optId : Int) (f : Form)
    (s : PanelAudit) : PanelAudit :=
  let optimistic := mkOptimisticRow optId f
  let d1 := optimistic :: s.panel
  let a1 := pushAudit role t1 "create_extension"
      (f.name ++ " (" ++ f.callerid ++ ")") s.audit
  let d2 := d1.filter (fun r => decide (r ≠ optimistic))
  let a2 := pushAudit role t2 "rollback_create_extension" f.name a1
  ⟨d2, a2⟩

/-- Behaviour of `saveEdit` when `apiUpdateExtension` rejects: merge the form over
every row with the id, push the update entry, then map those rows back
to `prev` (the captured row object) and push the rollback entry. -/
def saveEditFail (role : String) (t1 t2 : Nat) (row : Extension) (f : Form)
    (s : PanelAudit) : PanelAudit :=
  let updated := mergeForm row f
  let d1 := s.panel.map (fun r => if r.id = row.id then updated else r)
  let a1 := pushAudit role t1 "update_extension" (JsNum.render row.id) s.audit
  let d2 := d1.map (fun r => if r.id = row.id then row else r)
  let a2 := pushAudit role t2 "rollback_update_extension" (JsNum.render row.id) a1
  ⟨d2, a2⟩

/-- Behaviour of `deleteExt` when `apiDeleteExtension` rejects: capture `prev`,
filter out every row with the id, push the delete entry, then restore
the whole captured list and push the rollback entry. -/
def deleteExtFail (role : String) (t1 t2 : Nat) (id : JsNum)
    (s : PanelAudit) : PanelAudit :=
  let prev := s.panel
  let _d1 := s.panel.filter (fun r => decide (r.id ≠ id))
  let a1 := pushAudit role t1 "delete_extension" (JsNum.render id) s.audit
  let d2 := prev
  let a2 := pushAudit role t2 "rollback_delete_extension" (JsNum.render id) a1
  ⟨d2, a2⟩

/-- The success-path write of `saveEdit`:
`d.map(r => r.id === row.id ? saved : r)` — when `saved` is `undefined`
(`none`) the rows with the id become `undefined` in the array, so the
result lives in `List (Option Extension)` with `some` marking the rows
that stay records. -/
def applySavedRow (data : List Extension) (id : JsNum) (saved : Option Extension) :
    List (Option Extension) :=
  data.map (fun r => if r.id = id then saved else some r)

/-- The Extensions Panel's list together with the shared mock store. -/
structure AppSt where
  panel : List Extension
  store : List Extension
deriving DecidableEq, Repr

/-- One mock-mode mutation issued from the panel.  A create carries the
placeholder id `Math.floor(Math.random() * 1e9)` drew. -/
inductive Op where
  | create (optId : Int) (f : Form)
  | update (id : JsNum) (f : Form)
  | delete (id : JsNum)
deriving DecidableEq, Repr

/-- One settled mock-mode mutation.

* create: prepend the placeholder, then replace it by the returned row
  (`r === optimistic` is reference equality; the placeholder is freshly
  allocated, so the structural test used here agrees with it whenever
  no prior row is structurally equal to the placeholder — which the
  `__optimistic: true` flag guarantees against settled rows).
* update: the success write maps every row with the id to the returned
  record; the intermediate optimistic merge keeps the same id and is
  overwritten by it, so only the final map is kept here.  When the store
  lacks the id the returned record is `undefined`; rows of the panel
  with the id would then leave `List Extension` (see `applySavedRow`),
  which this model signals with `none`.
* delete: the panel drops every row with the id, the store its first. -/
def stepOp (s : AppSt) : Op → Option AppSt
  | .create optId f =>
    let optimistic := mkOptimisticRow optId f
    let d1 := optimistic :: s.panel
    match apiCreateExtensionMock s.store f with
    | (store', Except.ok saved) =>
      some ⟨d1.map (fun r => if r = optimistic then saved else r), store'⟩
    | (_, Except.error _) => none
  | .update id f =>
    match (updateFirst s.store id f).2 with
    | some saved =>
      some ⟨s.panel.map (fun r => if r.id = id then saved else r),
            (updateFirst s.store id f).1⟩
    | none =>
      if s.panel.any (fun r => decide (r.id = id)) then none
      else some ⟨s.panel, (updateFirst s.store id f).1⟩
  | .delete id =>
    some ⟨s.panel.filter (fun r => decide (r.id ≠ id)), deleteFirst s.store id⟩

/-- Run a sequence of settled mutations. -/
def runOps (s : AppSt) : List Op → Option AppSt
  | [] => some s
  | op :: ops =>
    match stepOp s op with
    | some s' => runOps s' ops
    | none => none

/-- Along the run, every create is issued while the store is nonempty
(so `Math.max` never sees an empty argument list). -/
def createsGuardedB (s : AppSt) : List Op → Bool
  | [] => true
  | op :: ops =>
    (match op with
     | .create _ _ => !s.store.isEmpty
     | _ => true) &&
    (match stepOp s op with
     | some s' => createsGuardedB s' ops
     | none => true)

/-- The panel/store invariant: the displayed list is the store up to
order, store ids are pairwise distinct integers, and no stored row
carries the placeholder flag. -/
def PanelInv (s : AppSt) : Prop :=
  s.panel.Perm s.store ∧
  (s.store.map (fun e => e.id)).Nodup ∧
  (∀ e ∈ s.store, e.id ≠ JsNum.negInf) ∧
  (∀ e ∈ s.store, e.optimisticFlag = false)

/-- The state after the panel's initial load in mock mode:
`structuredClone(MOCK_EXTENSIONS)` renders the displayed list equal to
the store record-for-record. -/
def initSt : AppSt := ⟨MOCK_EXTENSIONS, MOCK_EXTENSIONS⟩

/-- A create form used in concrete runs. -/
def lobbyForm : Form := ⟨"PJSIP", "Lobby", "Lobby <1050>", false, ""⟩

/-- A second form used in concrete runs. -/
def deskForm : Form := ⟨"PJSIP", "Front Desk", "Front Desk <1001>", true, "desk@example.com"⟩

/-- Deleting all seed rows empties the store; the next two creates both
draw id `-Infinity`, and deleting that id then strips both rows from
the panel but only the first from the store. -/
def cexOps : List Op :=
  [ Op.delete (.int 1001), Op.delete (.int 1002), Op.delete (.int 1003),
    Op.create 314159265 lobbyForm, Op.create 271828182 deskForm,
    Op.delete JsNum.negInf ]

/-- The state `cexOps` ends in. -/
def cexFinal : AppSt := (runOps initSt cexOps).getD ⟨[], []⟩

/-- A guarded run used as a witness. -/
def opsW : List Op :=
  [ Op.create 123456789 lobbyForm,
    Op.update (.int 1001) deskForm,
    Op.delete (.int 1002) ]

/-- The state `opsW` ends in. -/
def finalW : AppSt := (runOps initSt opsW).getD ⟨[], []⟩

/-- A realtime message carrying only `trunks` (the shape of the spec's
example `{"trunks":[...]}`). -/
def trunksOnlyMsg : JsVal :=
  .jobj [("trunks", .jarr
    [ .jobj [("name", .jstr "SIP Trunk AU-East"), ("state", .jstr "Registered"), ("latency_ms", .jnum 38)] ])]

/-- A message that has a `trunks` key with a falsy value and no
`queues` key. -/
def trunksNullMsg : JsVal := .jobj [("trunks", .jnull)]

/-- A loaded page row whose `src` field contains a double quote but no
comma and no newline. -/
def quoteFieldRow : CallRec :=
  ⟨"c1", "ACME \"West\"", "1001", "ANSWERED", 94, "2025-08-03 10:02:13"⟩

/-- A panel/audit state as loaded in mock mode, before any mutation. -/
def wPA : PanelAudit := ⟨MOCK_EXTENSIONS, []⟩

/-- A displayed row whose id the mock store does not contain. -/
def ghostRow : Extension := ⟨.int 9999, "PJSIP", "Ghost", "Ghost <9999>", false, "", false⟩

/-- The first seeded mock row, as a standalone value. -/
def receptionRow : Extension :=
  ⟨.int 1001, "PJSIP", "Reception", "Reception <1001>", true, "reception@example.com", false⟩

theorem pushAudit_eq (role : String) (now : Nat) (action detail : String)
    (a : List AuditEntry) :
    pushAudit role now action detail a =
      (⟨action, detail, now, role⟩ : AuditEntry) :: a.take 199 := rfl

theorem pushAudit_twice (role : String) (t1 t2 : Nat) (ac1 de1 ac2 de2 : String)
    (l : List AuditEntry) :
    pushAudit role t2 ac2 de2 (pushAudit role t1 ac1 de1 l) =
      (⟨ac2, de2, t2, role⟩ : AuditEntry) ::
      (⟨ac1, de1, t1, role⟩ : AuditEntry) :: l.take 198 := by
  rw [pushAudit_eq, pushAudit_eq]
  have h : ((⟨ac1, de1, t1, role⟩ : AuditEntry) :: l.take 199).take 199 =
      (⟨ac1, de1, t1, role⟩ : AuditEntry) :: l.take 198 := by
    rw [show (199 : Nat) = 198 + 1 from rfl, List.take_succ_cons, List.take_take]
    norm_num
  rw [h]

theorem pushAudit_foldl_length_le (ps : List (String × Nat × String × String))
    (a : List AuditEntry) (h : a.length ≤ 200) :
    (ps.foldl (fun acc p => pushAudit p.1 p.2.1 p.2.2.1 p.2.2.2 acc) a).length ≤ 200 := by
  induction ps generalizing a with
  | nil => simpa using h
  | cons p ps ih =>
    apply ih
    show (pushAudit p.1 p.2.1 p.2.2.1 p.2.2.2 a).length ≤ 200
    rw [pushAudit_eq, List.length_cons]
    have := List.length_take_le 199 a
    omega

/-- Claim C9: every push keeps the audit log at no more than 200
entries, places the freshly stamped entry at the head (newest first),
and otherwise only truncates the previous log to its first 199
entries — so pushes never alter surviving entries. -/
theorem C9_audit_log_capped_newest_first (role : String) (now : Nat)
    (action detail : String) (a : List AuditEntry) :
    pushAudit role now action detail a =
      (⟨action, detail, now, role⟩ : AuditEntry) :: a.take 199 ∧
    (pushAudit role now action detail a).length ≤ 200 ∧
    ∀ ps : List (String × Nat × String × String),
      (ps.foldl (fun acc p => pushAudit p.1 p.2.1 p.2.2.1 p.2.2.2 acc)
        ([] : List AuditEntry)).length ≤ 200 := by
  refine ⟨pushAudit_eq role now action detail a, ?_, ?_⟩
  · rw [pushAudit_eq, List.length_cons]
    have := List.length_take_le 199 a
    omega
  · intro ps
    exact pushAudit_foldl_length_le ps [] (by simp)

/-- Claim C8: a realtime message that fails to parse as JSON, or parses
to an object with neither a `trunks` nor a `queues` key, leaves the
status snapshot exactly unchanged. -/
theorem C8_malformed_message_discarded (st : JsVal) (raw : Option JsVal)
    (h : raw = none ∨ ∃ fs, raw = some (JsVal.jobj fs) ∧
      lookupField fs "trunks" = none ∧ lookupField fs "queues" = none) :
    onAriMessage st raw = st := by
  rcases h with h | ⟨fs, hraw, ht, hq⟩
  · subst h; rfl
  · subst hraw
    simp [onAriMessage, getProp, ht, hq, truthy]

theorem C8_witness :
    onAriMessage MOCK_STATUS_js (some (JsVal.jobj [("event", JsVal.jstr "ping")])) =
      MOCK_STATUS_js :=
  C8_malformed_message_discarded MOCK_STATUS_js _
    (Or.inr ⟨[("event", JsVal.jstr "ping")], rfl, rfl, rfl⟩)

theorem C2_counterexample :
    onAriMessage MOCK_STATUS_js (some trunksOnlyMsg) = trunksOnlyMsg ∧
    getProp (onAriMessage MOCK_STATUS_js (some trunksOnlyMsg)) "queues" = some none ∧
    getProp MOCK_STATUS_js "queues" ≠ some none ∧
    onAriMessage MOCK_STATUS_js (some trunksNullMsg) = MOCK_STATUS_js := by
  refine ⟨rfl, rfl, ?_, rfl⟩
  intro h
  exact Option.noConfusion (Option.some.inj h)

/-- Claim C2 (amended): a realtime message that parses to an object
whose `trunks` value is truthy (for example any array) and that omits
the `queues` key entirely is accepted, and the snapshot is replaced
wholesale by the message; after the update the snapshot's queues are
the message's absent (`undefined`) queues, not the queues of the
previous snapshot. -/
theorem C2_trunks_only_message_replaces_snapshot (st : JsVal)
    (fs : List (String × JsVal)) (tv : JsVal)
    (ht : lookupField fs "trunks" = some tv)
    (htr : truthy (some tv) = true)
    (hq : lookupField fs "queues" = none) :
    onAriMessage st (some (JsVal.jobj fs)) = JsVal.jobj fs ∧
    getProp (onAriMessage st (some (JsVal.jobj fs))) "queues" = some none := by
  have hacc : onAriMessage st (some (JsVal.jobj fs)) = JsVal.jobj fs := by
    simp [onAriMessage, getProp, ht, hq, htr]
  refine ⟨hacc, ?_⟩
  rw [hacc]
  simp [getProp, hq]

theorem C2_witness :
    onAriMessage MOCK_STATUS_js (some (JsVal.jobj [("trunks", JsVal.jarr [])])) =
      JsVal.jobj [("trunks", JsVal.jarr [])] ∧
    getProp (onAriMessage MOCK_STATUS_js
      (some (JsVal.jobj [("trunks", JsVal.jarr [])]))) "queues" = some none :=
  C2_trunks_only_message_replaces_snapshot MOCK_STATUS_js
    [("trunks", JsVal.jarr [])] (JsVal.jarr []) rfl rfl rfl

/-- Claim C6: the code quotes a field only when it contains a comma or
a newline, so a field containing a bare double quote is emitted
verbatim — unquoted and with the quote not doubled — contradicting the
claimed standard CSV quoting rule (modelled by `specEscapeCsvField`). -/
theorem C6_bare_quote_field_emitted_verbatim :
    escapeCsvField "ACME \"West\"" = "ACME \"West\"" ∧
    specEscapeCsvField "ACME \"West\"" = "\"ACME \"\"West\"\"\"" ∧
    escapeCsvField "ACME \"West\"" ≠ specEscapeCsvField "ACME \"West\"" ∧
    csvString [quoteFieldRow] =
      "id,src,dst,disposition,duration,calldate\nc1,ACME \"West\",1001,ANSWERED,94,2025-08-03 10:02:13" := by
  decide

theorem C7_counterexample :
    (apiFetchCallsMock "" "" "9999" 1 20).2 = 0 ∧
    totalPagesOf (apiFetchCallsMock "" "" "9999" 1 20).2 20 = 1 ∧
    ¬ totalPagesOf (apiFetchCallsMock "" "" "9999" 1 20).2 20 ≤
        jsCeilDiv (apiFetchCallsMock "" "" "9999" 1 20).2 20 := by
  decide

/-- Claim C7 (amended): for every filter, page `p ≥ 1` and positive
page size `n`, the mock call fetch returns at most `n` rows, and the
largest page the panel's Next button can reach is bounded by
`max 1 ⌈total / n⌉` (the `max 1` is forced: with an empty result set the
panel still offers page 1 while `⌈0 / n⌉ = 0`). -/
theorem C7_pagination_bounds (fromD toD ext : String) (page pageSize : Nat)
    (_hpage : 1 ≤ page) (_hsize : 0 < pageSize) :
    (apiFetchCallsMock fromD toD ext page pageSize).1.length ≤ pageSize ∧
    ∀ p : Nat,
      nextPageTarget p (apiFetchCallsMock fromD toD ext page pageSize).2 pageSize ≤
        max 1 (jsCeilDiv (apiFetchCallsMock fromD toD ext page pageSize).2 pageSize) := by
  constructor
  · exact List.length_take_le _ _
  · intro p
    exact min_le_left _ _

theorem C7_witness :
    1 ≤ 1 ∧ 0 < 20 ∧ (apiFetchCallsMock "" "" "1001" 1 20).1.length ≤ 20 :=
  ⟨by decide, by decide,
    (C7_pagination_bounds "" "" "1001" 1 20 (by decide) (by decide)).1⟩

theorem updateFirst_not_found (store : List Extension) (id : JsNum) (f : Form)
    (h : ∀ e ∈ store, e.id ≠ id) : updateFirst store id f = (store, none) := by
  induction store with
  | nil => rfl
  | cons e rest ih =>
    have he : e.id ≠ id := h e (List.mem_cons_self e rest)
    simp [updateFirst, he, ih (fun x hx => h x (List.mem_cons_of_mem e hx))]

theorem applySavedRow_none_countP (data : List Extension) (id : JsNum) :
    (applySavedRow data id none).countP (fun x => decide (x = none)) =
      data.countP (fun r => decide (r.id = id)) := by
  induction data with
  | nil => rfl
  | cons r rest ih =>
    by_cases hr : r.id = id
    · simp [applySavedRow, List.countP_cons, hr] at ih ⊢
      omega
    · simp [applySavedRow, List.countP_cons, hr] at ih ⊢
      omega

/-- Claim C10: updating an id that is absent from the mock store
resolves successfully (`Except.ok`, not a rejection) with the value
`undefined` and leaves the store unchanged; the panel's success path
then turns every displayed row bearing that id into `undefined`
(instead of rolling back). -/
theorem C10_missing_id_update_resolves_undefined (store : List Extension)
    (id : JsNum) (f : Form) (data : List Extension)
    (h : ∀ e ∈ store, e.id ≠ id) :
    apiUpdateExtensionMock store id f = (store, Except.ok none) ∧
    (applySavedRow data id none).countP (fun x => decide (x = none)) =
      data.countP (fun r => decide (r.id = id)) ∧
    ∀ r ∈ data, r.id = id → (none : Option Extension) ∈ applySavedRow data id none := by
  refine ⟨?_, applySavedRow_none_countP data id, ?_⟩
  · rw [apiUpdateExtensionMock, updateFirst_not_found store id f h]
  · intro r hr hid
    have hmem := List.mem_map_of_mem
      (fun r : Extension => if r.id = id then (none : Option Extension) else some r) hr
    simp only [hid, eq_self_iff_true, if_true] at hmem
    exact hmem

theorem C10_witness :
    apiUpdateExtensionMock MOCK_EXTENSIONS (.int 9999) lobbyForm =
      (MOCK_EXTENSIONS, Except.ok none) ∧
    (applySavedRow [ghostRow] (.int 9999) none).countP (fun x => decide (x = none)) =
      [ghostRow].countP (fun r => decide (r.id = JsNum.int 9999)) :=
  ⟨(C10_missing_id_update_resolves_undefined MOCK_EXTENSIONS (.int 9999) lobbyForm
      [ghostRow] (by decide)).1,
   (C10_missing_id_update_resolves_undefined MOCK_EXTENSIONS (.int 9999) lobbyForm
      [ghostRow] (by decide)).2.1⟩

theorem filter_ne_all (l : List Extension) (x : Extension)
    (h : ∀ r ∈ l, r ≠ x) : l.filter (fun r => decide (r ≠ x)) = l := by
  rw [List.filter_eq_self]
  intro a ha
  simpa using h a ha

/-- Claim C3: when a create's mock/remote call rejects, the optimistic
placeholder row is removed again, restoring the displayed list to its
prior contents, and exactly one `rollback_create_extension` entry is
appended on top of the single `create_extension` entry pushed before
the result was known. -/
theorem C3_failed_create_rolls_back (role : String) (t1 t2 : Nat) (optId : Int)
    (f : Form) (s : PanelAudit)
    (h : ∀ r ∈ s.panel, r.optimisticFlag = false) :
    (createExtFail role t1 t2 optId f s).panel = s.panel ∧
    (createExtFail role t1 t2 optId f s).audit =
      (⟨"rollback_create_extension", f.name, t2, role⟩ : AuditEntry) ::
      (⟨"create_extension", f.name ++ " (" ++ f.callerid ++ ")", t1, role⟩ : AuditEntry) ::
      s.audit.take 198 ∧
    (createExtFail role t1 t2 optId f s).audit.countP
        (fun e => decide (e.action = "rollback_create_extension")) =
      1 + (s.audit.take 198).countP
        (fun e => decide (e.action = "rollback_create_extension")) := by
  have hne : ∀ r ∈ s.panel, r ≠ mkOptimisticRow optId f := by
    intro r hr heq
    have hflag := h r hr
    rw [heq] at hflag
    simp [mkOptimisticRow] at hflag
  have hpanel : (createExtFail role t1 t2 optId f s).panel = s.panel := by
    show ((mkOptimisticRow optId f :: s.panel).filter
      (fun r => decide (r ≠ mkOptimisticRow optId f))) = s.panel
    rw [List.filter_cons, if_neg (by simp), filter_ne_all s.panel _ hne]
  have haudit : (createExtFail role t1 t2 optId f s).audit =
      (⟨"rollback_create_extension", f.name, t2, role⟩ : AuditEntry) ::
      (⟨"create_extension", f.name ++ " (" ++ f.callerid ++ ")", t1, role⟩ : AuditEntry) ::
      s.audit.take 198 := by
    show pushAudit role t2 "rollback_create_extension" f.name
      (pushAudit role t1 "create_extension" (f.name ++ " (" ++ f.callerid ++ ")") s.audit) = _
    rw [pushAudit_twice]
  refine ⟨hpanel, haudit, ?_⟩
  rw [haudit, List.countP_cons, List.countP_cons]
  simp
  omega

theorem C3_witness :
    (createExtFail "admin" 5 6 424242 lobbyForm wPA).panel = wPA.panel ∧
    (createExtFail "admin" 5 6 424242 lobbyForm wPA).audit =
      (⟨"rollback_create_extension", lobbyForm.name, 6, "admin"⟩ : AuditEntry) ::
      (⟨"create_extension", lobbyForm.name ++ " (" ++ lobbyForm.callerid ++ ")", 5, "admin"⟩ : AuditEntry) ::
      wPA.audit.take 198 ∧
    (createExtFail "admin" 5 6 424242 lobbyForm wPA).audit.countP
        (fun e => decide (e.action = "rollback_create_extension")) =
      1 + (wPA.audit.take 198).countP
        (fun e => decide (e.action = "rollback_create_extension")) :=
  C3_failed_create_rolls_back "admin" 5 6 424242 lobbyForm wPA (by decide)

theorem map_update_rollback (l : List Extension) (row updated : Extension)
    (hup : updated.id = row.id)
    (h : ∀ r ∈ l, r.id = row.id → r = row) :
    (l.map (fun r => if r.id = row.id then updated else r)).map
      (fun r => if r.id = row.id then row else r) = l := by
  induction l with
  | nil => rfl
  | cons a rest ih =>
    have ih' := ih (fun r hr => h r (List.mem_cons_of_mem a hr))
    by_cases ha : a.id = row.id
    · have ha2 : a = row := h a (List.mem_cons_self a rest) ha
      simp [ha, hup, ih', ha2]
    · simp [ha, ih']

/-- Claim C4: when an update's mock/remote call rejects, the displayed
row with the updated id is restored to exactly its pre-update field
values (the captured `prev` row), and exactly one
`rollback_update_extension` entry is appended on top of the single
`update_extension` entry pushed before the result was known. -/
theorem C4_failed_update_restores_row (role : String) (t1 t2 : Nat)
    (row : Extension) (f : Form) (s : PanelAudit)
    (h : ∀ r ∈ s.panel, r.id = row.id → r = row) :
    (saveEditFail role t1 t2 row f s).panel = s.panel ∧
    (saveEditFail role t1 t2 row f s).audit =
      (⟨"rollback_update_extension", JsNum.render row.id, t2, role⟩ : AuditEntry) ::
      (⟨"update_extension", JsNum.render row.id, t1, role⟩ : AuditEntry) ::
      s.audit.take 198 ∧
    (saveEditFail role t1 t2 row f s).audit.countP
        (fun e => decide (e.action = "rollback_update_extension")) =
      1 + (s.audit.take 198).countP
        (fun e => decide (e.action = "rollback_update_extension")) := by
  have hpanel : (saveEditFail role t1 t2 row f s).panel = s.panel := by
    show ((s.panel.map (fun r => if r.id = row.id then mergeForm row f else r)).map
      (fun r => if r.id = row.id then row else r)) = s.panel
    exact map_update_rollback s.panel row (mergeForm row f) rfl h
  have haudit : (saveEditFail role t1 t2 row f s).audit =
      (⟨"rollback_update_extension", JsNum.render row.id, t2, role⟩ : AuditEntry) ::
      (⟨"update_extension", JsNum.render row.id, t1, role⟩ : AuditEntry) ::
      s.audit.take 198 := by
    show pushAudit role t2 "rollback_update_extension" (JsNum.render row.id)
      (pushAudit role t1 "update_extension" (JsNum.render row.id) s.audit) = _
    rw [pushAudit_twice]
  refine ⟨hpanel, haudit, ?_⟩
  rw [haudit, List.countP_cons, List.countP_cons]
  simp
  omega

theorem C4_witness :
    (saveEditFail "admin" 7 8 receptionRow deskForm wPA).panel = wPA.panel ∧
    (saveEditFail "admin" 7 8 receptionRow deskForm wPA).audit =
      (⟨"rollback_update_extension", JsNum.render receptionRow.id, 8, "admin"⟩ : AuditEntry) ::
      (⟨"update_extension", JsNum.render receptionRow.id, 7, "admin"⟩ : AuditEntry) ::
      wPA.audit.take 198 ∧
    (saveEditFail "admin" 7 8 receptionRow deskForm wPA).audit.countP
        (fun e => decide (e.action = "rollback_update_extension")) =
      1 + (wPA.audit.take 198).countP
        (fun e => decide (e.action = "rollback_update_extension")) :=
  C4_failed_update_restores_row "admin" 7 8 receptionRow deskForm wPA (by decide)

/-- Claim C5: when a delete's mock/remote call rejects, the entire
displayed list is restored to the full list captured before the
optimistic removal (coarse-grained rollback), and one
`rollback_delete_extension` entry is appended after the single
`delete_extension` entry. -/
theorem C5_failed_delete_restores_list (role : String) (t1 t2 : Nat)
    (id : JsNum) (s : PanelAudit) :
    (deleteExtFail role t1 t2 id s).panel = s.panel ∧
    (deleteExtFail role t1 t2 id s).audit =
      (⟨"rollback_delete_extension", JsNum.render id, t2, role⟩ : AuditEntry) ::
      (⟨"delete_extension", JsNum.render id, t1, role⟩ : AuditEntry) ::
      s.audit.take 198 ∧
    (deleteExtFail role t1 t2 id s).audit.countP
        (fun e => decide (e.action = "rollback_delete_extension")) =
      1 + (s.audit.take 198).countP
        (fun e => decide (e.action = "rollback_delete_extension")) := by
  have haudit : (deleteExtFail role t1 t2 id s).audit =
      (⟨"rollback_delete_extension", JsNum.render id, t2, role⟩ : AuditEntry) ::
      (⟨"delete_extension", JsNum.render id, t1, role⟩ : AuditEntry) ::
      s.audit.take 198 := by
    show pushAudit role t2 "rollback_delete_extension" (JsNum.render id)
      (pushAudit role t1 "delete_extension" (JsNum.render id) s.audit) = _
    rw [pushAudit_twice]
  refine ⟨rfl, haudit, ?_⟩
  rw [haudit, List.countP_cons, List.countP_cons]
  simp
  omega

theorem JsNum.leB_refl (a : JsNum) : JsNum.leB a a = true := by
  cases a <;> simp [JsNum.leB]

theorem JsNum.leB_trans {a b c : JsNum} (h1 : JsNum.leB a b = true)
    (h2 : JsNum.leB b c = true) : JsNum.leB a c = true := by
  cases a <;> cases b <;> cases c <;> (try (simp_all [JsNum.leB]; omega)) <;>
    simp_all [JsNum.leB]

theorem JsNum.leB_max_left (a b : JsNum) : JsNum.leB a (JsNum.max a b) = true := by
  cases a <;> cases b <;> simp [JsNum.leB, JsNum.max, le_max_left]

theorem JsNum.leB_max_right (a b : JsNum) : JsNum.leB b (JsNum.max a b) = true := by
  cases a <;> cases b <;> simp [JsNum.leB, JsNum.max, le_max_right]

theorem leB_foldl_max_acc (l : List JsNum) (acc : JsNum) :
    JsNum.leB acc (l.foldl JsNum.max acc) = true := by
  induction l generalizing acc with
  | nil => exact JsNum.leB_refl acc
  | cons a l ih =>
    exact JsNum.leB_trans (JsNum.leB_max_left acc a) (ih (JsNum.max acc a))

theorem leB_foldl_max_mem (l : List JsNum) (acc x : JsNum) (hx : x ∈ l) :
    JsNum.leB x (l.foldl JsNum.max acc) = true := by
  induction l generalizing acc with
  | nil => cases hx
  | cons a l ih =>
    rcases List.mem_cons.mp hx with h | h
    · subst h
      exact JsNum.leB_trans (JsNum.leB_max_right acc x) (leB_foldl_max_acc l (JsNum.max acc x))
    · exact ih (JsNum.max acc a) h

theorem JsNum.exists_int_of_ne_negInf {a : JsNum} (h : a ≠ JsNum.negInf) :
    ∃ n : Int, a = JsNum.int n := by
  cases a with
  | negInf => exact absurd rfl h
  | int n => exact ⟨n, rfl⟩

theorem nextMockId_fresh (store : List Extension) (hne : store ≠ [])
    (hb : ∀ e ∈ store, e.id ≠ JsNum.negInf) :
    nextMockId store ≠ JsNum.negInf ∧ ∀ e ∈ store, e.id ≠ nextMockId store := by
  obtain ⟨e0, he0⟩ := List.exists_mem_of_ne_nil store hne
  set m := (store.map (fun e => e.id)).foldl JsNum.max JsNum.negInf with hm
  obtain ⟨k0, hk0⟩ := JsNum.exists_int_of_ne_negInf (hb e0 he0)
  have hle0 : JsNum.leB e0.id m = true := by
    rw [hm]
    exact leB_foldl_max_mem _ _ _ (List.mem_map_of_mem (fun e => e.id) he0)
  have hmne : m ≠ JsNum.negInf := by
    intro hcon
    rw [hcon, hk0] at hle0
    simp [JsNum.leB] at hle0
  obtain ⟨M, hM⟩ := JsNum.exists_int_of_ne_negInf hmne
  have hnext : nextMockId store = JsNum.int (M + 1) := by
    unfold nextMockId
    rw [← hm, hM]
    rfl
  constructor
  · rw [hnext]
    intro hcon
    exact JsNum.noConfusion hcon
  · intro e he hcon
    obtain ⟨k, hk⟩ := JsNum.exists_int_of_ne_negInf (hb e he)
    have hlek : JsNum.leB e.id m = true := by
      rw [hm]
      exact leB_foldl_max_mem _ _ _ (List.mem_map_of_mem (fun e => e.id) he)
    rw [hk, hM] at hlek
    simp [JsNum.leB] at hlek
    rw [hk, hnext] at hcon
    have hk1 : k = M + 1 := by injection hcon
    omega

theorem map_replace_id_eq_self (l : List Extension) (id : JsNum) (v : Extension)
    (h : ∀ r ∈ l, r.id ≠ id) :
    l.map (fun r => if r.id = id then v else r) = l := by
  induction l with
  | nil => rfl
  | cons a rest ih =>
    have ha := h a (List.mem_cons_self a rest)
    simp [ha, ih (fun r hr => h r (List.mem_cons_of_mem a hr))]

theorem map_replace_val_eq_self (l : List Extension) (x v : Extension)
    (h : ∀ r ∈ l, r ≠ x) :
    l.map (fun r => if r = x then v else r) = l := by
  induction l with
  | nil => rfl
  | cons a rest ih =>
    have ha := h a (List.mem_cons_self a rest)
    simp [ha, ih (fun r hr => h r (List.mem_cons_of_mem a hr))]

theorem filter_idne_all (l : List Extension) (id : JsNum)
    (h : ∀ r ∈ l, r.id ≠ id) : l.filter (fun r => decide (r.id ≠ id)) = l := by
  rw [List.filter_eq_self]
  intro a ha
  simpa using h a ha

theorem head_eq_of_id_mem (a e : Extension) (rest : List Extension) (id : JsNum)
    (hnin : a.id ∉ rest.map (fun x => x.id))
    (he : e ∈ a :: rest) (hid : e.id = id) (ha : a.id = id) : e = a := by
  rcases List.mem_cons.mp he with h | h
  · exact h
  · exfalso
    apply hnin
    rw [ha, ← hid]
    exact List.mem_map_of_mem (fun x => x.id) h

theorem mem_rest_of_id_ne (a e : Extension) (rest : List Extension) (id : JsNum)
    (he : e ∈ a :: rest) (hid : e.id = id) (ha : ¬ a.id = id) : e ∈ rest := by
  rcases List.mem_cons.mp he with h | h
  · exact absurd (h ▸ hid) ha
  · exact h

theorem updateFirst_fst_map_id (store : List Extension) (id : JsNum) (f : Form) :
    (updateFirst store id f).1.map (fun e => e.id) = store.map (fun e => e.id) := by
  induction store with
  | nil => rfl
  | cons e rest ih =>
    by_cases he : e.id = id
    · simp [updateFirst, he, mergeForm]
    · simp [updateFirst, he, ih]

theorem updateFirst_fst_eq_of_none (store : List Extension) (id : JsNum) (f : Form)
    (h : (updateFirst store id f).2 = none) : (updateFirst store id f).1 = store := by
  induction store with
  | nil => rfl
  | cons e rest ih =>
    by_cases he : e.id = id
    · simp [updateFirst, he] at h
    · simp only [updateFirst, he, if_false] at h ⊢
      simp at h ⊢
      exact ih h

theorem updateFirst_found (store : List Extension) (id : JsNum) (f : Form) (e : Extension)
    (hnd : (store.map (fun x => x.id)).Nodup) (he : e ∈ store) (hid : e.id = id) :
    (updateFirst store id f).2 = some (mergeForm e f) ∧
    (updateFirst store id f).1.Perm (mergeForm e f :: store.erase e) := by
  induction store with
  | nil => cases he
  | cons a rest ih =>
    rw [List.map_cons, List.nodup_cons] at hnd
    obtain ⟨hnin, hndr⟩ := hnd
    by_cases ha : a.id = id
    · have hea : e = a := head_eq_of_id_mem a e rest id hnin he hid ha
      subst hea
      constructor
      · simp [updateFirst, ha]
      · simp [updateFirst, ha, List.erase_cons_head]
    · have herest : e ∈ rest := mem_rest_of_id_ne a e rest id he hid ha
      have hane : a ≠ e := fun hcon => ha (hcon ▸ hid)
      obtain ⟨ih1, ih2⟩ := ih hndr herest
      have herase : (a :: rest).erase e = a :: rest.erase e :=
        List.erase_cons_tail (by simp [hane])
      constructor
      · simp only [updateFirst, ha, if_false]
        simpa using ih1
      · rw [herase]
        have hfst : (updateFirst (a :: rest) id f).1 = a :: (updateFirst rest id f).1 := by
          simp [updateFirst, ha]
        rw [hfst]
        exact (ih2.cons a).trans (List.Perm.swap _ _ _)

theorem deleteFirst_not_found (store : List Extension) (id : JsNum)
    (h : ∀ e ∈ store, e.id ≠ id) : deleteFirst store id = store := by
  induction store with
  | nil => rfl
  | cons e rest ih =>
    have he := h e (List.mem_cons_self e rest)
    simp [deleteFirst, he, ih (fun x hx => h x (List.mem_cons_of_mem e hx))]

theorem deleteFirst_eq_erase (store : List Extension) (id : JsNum) (e : Extension)
    (hnd : (store.map (fun x => x.id)).Nodup) (he : e ∈ store) (hid : e.id = id) :
    deleteFirst store id = store.erase e := by
  induction store with
  | nil => cases he
  | cons a rest ih =>
    rw [List.map_cons, List.nodup_cons] at hnd
    obtain ⟨hnin, hndr⟩ := hnd
    by_cases ha : a.id = id
    · have hea : e = a := head_eq_of_id_mem a e rest id hnin he hid ha
      subst hea
      simp [deleteFirst, ha, List.erase_cons_head]
    · have herest : e ∈ rest := mem_rest_of_id_ne a e rest id he hid ha
      have hane : a ≠ e := fun hcon => ha (hcon ▸ hid)
      have herase : (a :: rest).erase e = a :: rest.erase e :=
        List.erase_cons_tail (by simp [hane])
      rw [herase]
      simp [deleteFirst, ha, ih hndr herest]

theorem filter_ne_eq_erase (l : List Extension) (id : JsNum) (e : Extension)
    (hnd : (l.map (fun x => x.id)).Nodup) (he : e ∈ l) (hid : e.id = id) :
    l.filter (fun r => decide (r.id ≠ id)) = l.erase e := by
  induction l with
  | nil => cases he
  | cons a rest ih =>
    rw [List.map_cons, List.nodup_cons] at hnd
    obtain ⟨hnin, hndr⟩ := hnd
    by_cases ha : a.id = id
    · have hea : e = a := head_eq_of_id_mem a e rest id hnin he hid ha
      subst hea
      have hrest : ∀ r ∈ rest, r.id ≠ id := by
        intro r hr hcon
        apply hnin
        rw [ha, ← hcon]
        exact List.mem_map_of_mem (fun x => x.id) hr
      rw [List.filter_cons, if_neg (by simp [ha]), List.erase_cons_head]
      exact filter_idne_all rest id hrest
    · have herest : e ∈ rest := mem_rest_of_id_ne a e rest id he hid ha
      have hane : a ≠ e := fun hcon => ha (hcon ▸ hid)
      have herase : (a :: rest).erase e = a :: rest.erase e :=
        List.erase_cons_tail (by simp [hane])
      rw [List.filter_cons, if_pos (by simp [ha]), herase, ih hndr herest]

theorem map_replace_perm (l : List Extension) (id : JsNum) (v : Extension) (e : Extension)
    (hnd : (l.map (fun x => x.id)).Nodup) (he : e ∈ l) (hid : e.id = id) :
    (l.map (fun r => if r.id = id then v else r)).Perm (v :: l.erase e) := by
  induction l with
  | nil => cases he
  | cons a rest ih =>
    rw [List.map_cons, List.nodup_cons] at hnd
    obtain ⟨hnin, hndr⟩ := hnd
    by_cases ha : a.id = id
    · have hea : e = a := head_eq_of_id_mem a e rest id hnin he hid ha
      subst hea
      have hrest : ∀ r ∈ rest, r.id ≠ id := by
        intro r hr hcon
        apply hnin
        rw [ha, ← hcon]
        exact List.mem_map_of_mem (fun x => x.id) hr
      rw [List.map_cons, if_pos ha, List.erase_cons_head,
        map_replace_id_eq_self rest id v hrest]
    · have herest : e ∈ rest := mem_rest_of_id_ne a e rest id he hid ha
      have hane : a ≠ e := fun hcon => ha (hcon ▸ hid)
      have herase : (a :: rest).erase e = a :: rest.erase e :=
        List.erase_cons_tail (by simp [hane])
      rw [List.map_cons, if_neg ha, herase]
      exact ((ih hndr herest).cons a).trans (List.Perm.swap _ _ _)

theorem stepOp_inv (s s' : AppSt) (op : Op)
    (hperm : s.panel.Perm s.store)
    (hnd : (s.store.map (fun e => e.id)).Nodup)
    (hninf : ∀ e ∈ s.store, e.id ≠ JsNum.negInf)
    (hflag : ∀ e ∈ s.store, e.optimisticFlag = false)
    (hg : ∀ optId f, op = Op.create optId f → s.store ≠ [])
    (hstep : stepOp s op = some s') :
    s'.panel.Perm s'.store ∧
    (s'.store.map (fun e => e.id)).Nodup ∧
    (∀ e ∈ s'.store, e.id ≠ JsNum.negInf) ∧
    (∀ e ∈ s'.store, e.optimisticFlag = false) := by
  cases op with
  | create optId f =>
    have hne := hg optId f rfl
    obtain ⟨hfresh_ninf, hfresh⟩ := nextMockId_fresh s.store hne hninf
    have hpanelflag : ∀ r ∈ s.panel, r ≠ mkOptimisticRow optId f := by
      intro r hr hcon
      have hf : r.optimisticFlag = false := hflag r (hperm.mem_iff.mp hr)
      rw [hcon] at hf
      simp [mkOptimisticRow] at hf
    have hstep' : stepOp s (Op.create optId f) =
        some ⟨mkMockRow (nextMockId s.store) f :: s.panel,
              s.store ++ [mkMockRow (nextMockId s.store) f]⟩ := by
      show some (⟨(mkOptimisticRow optId f :: s.panel).map
          (fun r => if r = mkOptimisticRow optId f then mkMockRow (nextMockId s.store) f else r),
          s.store ++ [mkMockRow (nextMockId s.store) f]⟩ : AppSt) =
        some (⟨mkMockRow (nextMockId s.store) f :: s.panel,
          s.store ++ [mkMockRow (nextMockId s.store) f]⟩ : AppSt)
      rw [List.map_cons, if_pos rfl, map_replace_val_eq_self s.panel _ _ hpanelflag]
    rw [hstep'] at hstep
    rw [Option.some.injEq] at hstep
    subst hstep
    refine ⟨?_, ?_, ?_, ?_⟩
    · exact (hperm.cons _).trans (List.perm_append_singleton _ s.store).symm
    · show ((s.store ++ [mkMockRow (nextMockId s.store) f]).map (fun e => e.id)).Nodup
      rw [List.map_append]
      apply (List.perm_append_singleton _ _).symm.nodup
      rw [List.nodup_cons]
      refine ⟨?_, hnd⟩
      intro hmem
      obtain ⟨e, he, heq⟩ := List.mem_map.mp hmem
      exact hfresh e he heq
    · intro e he
      rcases List.mem_append.mp he with h | h
      · exact hninf e h
      · rw [List.mem_singleton.mp h]
        exact hfresh_ninf
    · intro e he
      rcases List.mem_append.mp he with h | h
      · exact hflag e h
      · rw [List.mem_singleton.mp h]
        rfl
  | update id f =>
    simp only [stepOp] at hstep
    split at hstep
    · rename_i saved hres
      rw [Option.some.injEq] at hstep
      subst hstep
      by_cases hmem : ∃ e, e ∈ s.store ∧ e.id = id
      · obtain ⟨e, he, hid⟩ := hmem
        obtain ⟨hres2, hperm2⟩ := updateFirst_found s.store id f e hnd he hid
        rw [hres] at hres2
        have hsaved : saved = mergeForm e f := by
          injection hres2
        subst hsaved
        have hpnd : (s.panel.map (fun x => x.id)).Nodup :=
          ((hperm.map (fun x => x.id)).symm).nodup hnd
        have hepanel : e ∈ s.panel := hperm.mem_iff.mpr he
        refine ⟨?_, ?_, ?_, ?_⟩
        · have h1 := map_replace_perm s.panel id (mergeForm e f) e hpnd hepanel hid
          have h2 : (s.panel.erase e).Perm (s.store.erase e) := hperm.erase e
          exact h1.trans ((h2.cons _).trans hperm2.symm)
        · show ((updateFirst s.store id f).1.map (fun e => e.id)).Nodup
          rw [updateFirst_fst_map_id]
          exact hnd
        · intro e' he'
          have hmm : e'.id ∈ (updateFirst s.store id f).1.map (fun x => x.id) :=
            List.mem_map_of_mem _ he'
          rw [updateFirst_fst_map_id] at hmm
          obtain ⟨e'', he'', heq⟩ := List.mem_map.mp hmm
          rw [← heq]
          exact hninf e'' he''
        · intro e' he'
          have hmm : e' ∈ mergeForm e f :: s.store.erase e := hperm2.mem_iff.mp he'
          rcases List.mem_cons.mp hmm with h | h
          · rw [h]
            show e.optimisticFlag = false
            exact hflag e he
          · exact hflag e' (List.mem_of_mem_erase h)
      · push_neg at hmem
        rw [updateFirst_not_found s.store id f (fun e he => hmem e he)] at hres
        simp at hres
    · rename_i hres
      split at hstep
      · cases hstep
      · rw [Option.some.injEq] at hstep
        subst hstep
        have hfst : (updateFirst s.store id f).1 = s.store :=
          updateFirst_fst_eq_of_none s.store id f hres
        rw [hfst]
        exact ⟨hperm, hnd, hninf, hflag⟩
  | delete id =>
    simp only [stepOp] at hstep
    rw [Option.some.injEq] at hstep
    subst hstep
    by_cases hmem : ∃ e, e ∈ s.store ∧ e.id = id
    · obtain ⟨e, he, hid⟩ := hmem
      have hdel := deleteFirst_eq_erase s.store id e hnd he hid
      have hpnd : (s.panel.map (fun x => x.id)).Nodup :=
        ((hperm.map (fun x => x.id)).symm).nodup hnd
      have hepanel : e ∈ s.panel := hperm.mem_iff.mpr he
      have hfil := filter_ne_eq_erase s.panel id e hpnd hepanel hid
      refine ⟨?_, ?_, ?_, ?_⟩
      · show (s.panel.filter (fun r => decide (r.id ≠ id))).Perm (deleteFirst s.store id)
        rw [hfil, hdel]
        exact hperm.erase e
      · show ((deleteFirst s.store id).map (fun e => e.id)).Nodup
        rw [hdel]
        exact List.Nodup.sublist ((List.erase_sublist e s.store).map (fun x => x.id)) hnd
      · intro e' he'
        rw [hdel] at he'
        exact hninf e' (List.mem_of_mem_erase he')
      · intro e' he'
        rw [hdel] at he'
        exact hflag e' (List.mem_of_mem_erase he')
    · push_neg at hmem
      have hdel := deleteFirst_not_found s.store id (fun e he => hmem e he)
      have hfil : s.panel.filter (fun r => decide (r.id ≠ id)) = s.panel := by
        apply filter_idne_all
        intro r hr
        exact hmem r (hperm.mem_iff.mp hr)
      rw [hdel]
      refine ⟨?_, hnd, hninf, hflag⟩
      show (s.panel.filter (fun r => decide (r.id ≠ id))).Perm s.store
      rw [hfil]
      exact hperm

theorem runOps_inv (ops : List Op) (s s' : AppSt)
    (hperm : s.panel.Perm s.store)
    (hnd : (s.store.map (fun e => e.id)).Nodup)
    (hninf : ∀ e ∈ s.store, e.id ≠ JsNum.negInf)
    (hflag : ∀ e ∈ s.store, e.optimisticFlag = false)
    (hg : createsGuardedB s ops = true)
    (hrun : runOps s ops = some s') :
    s'.panel.Perm s'.store ∧
    (s'.store.map (fun e => e.id)).Nodup ∧
    (∀ e ∈ s'.store, e.id ≠ JsNum.negInf) ∧
    (∀ e ∈ s'.store, e.optimisticFlag = false) := by
  induction ops generalizing s with
  | nil =>
    have hss : s = s' := by
      have h := hrun
      simp [runOps] at h
      exact h
    subst hss
    exact ⟨hperm, hnd, hninf, hflag⟩
  | cons op ops ih =>
    simp only [createsGuardedB, Bool.and_eq_true] at hg
    obtain ⟨hg1, hg2⟩ := hg
    cases hstep : stepOp s op with
    | none =>
      have h : runOps s (op :: ops) = none := by
        simp [runOps, hstep]
      rw [h] at hrun
      cases hrun
    | some s1 =>
      have hrun1 : runOps s1 ops = some s' := by
        have h : runOps s (op :: ops) = runOps s1 ops := by
          simp [runOps, hstep]
        rw [h] at hrun
        exact hrun
      have hg2' : createsGuardedB s1 ops = true := by
        rw [hstep] at hg2
        exact hg2
      have hguard : ∀ optId f, op = Op.create optId f → s.store ≠ [] := by
        intro optId f hop
        subst hop
        have hg1' : (!s.store.isEmpty) = true := hg1
        intro hcon
        rw [hcon] at hg1'
        simp at hg1'
      obtain ⟨h1, h2, h3, h4⟩ := stepOp_inv s s1 op hperm hnd hninf hflag hguard hstep
      exact ih s1 h1 h2 h3 h4 hg2' hrun1

theorem initSt_inv :
    initSt.panel.Perm initSt.store ∧
    (initSt.store.map (fun e => e.id)).Nodup ∧
    (∀ e ∈ initSt.store, e.id ≠ JsNum.negInf) ∧
    (∀ e ∈ initSt.store, e.optimisticFlag = false) :=
  ⟨List.Perm.refl _, by decide, by decide, by decide⟩

theorem C1_counterexample :
    runOps initSt cexOps = some cexFinal ∧
    ¬ cexFinal.panel.Perm cexFinal.store := by
  constructor
  · decide
  · decide

/-- Claim C1 (amended): for every sequence of settled mock-mode
create/update/delete operations in which each create is issued while
the mock store is nonempty, after every successful operation the list
held by the Extensions Panel contains exactly the records of the mock
in-memory store (equal as multisets): the create prepends the record
the adapter returned in place of the optimistic placeholder (matched by
object identity), and update/delete replace or remove the row with the
given id to agree with the store.  The nonempty-store proviso is forced:
creating on an empty store draws the id `-Infinity` (`Math.max` of no
arguments, plus one), two such creates collide, and deleting that id
then removes both rows from the panel but only one from the store. -/
theorem C1_panel_matches_store (ops : List Op) (s' : AppSt)
    (hg : createsGuardedB initSt ops = true)
    (hrun : runOps initSt ops = some s') :
    s'.panel.Perm s'.store :=
  (runOps_inv ops initSt s' initSt_inv.1 initSt_inv.2.1 initSt_inv.2.2.1
    initSt_inv.2.2.2 hg hrun).1

theorem C1_witness :
    createsGuardedB initSt opsW = true ∧
    runOps initSt opsW = some finalW ∧
    finalW.panel.Perm finalW.store :=
  ⟨by decide, by decide, C1_panel_matches_store opsW finalW (by decide) (by decide)⟩
